import Mathlib

set_option maxRecDepth 1000000
set_option maxHeartbeats 4000000

/-!
Verification of the activation-token codec and session registry of
express-traducteur (src/utils/hmac.ts i.e. the codec half of
src/middleware/auth.ts, and src/services/activationService.ts).

JavaScript strings are modelled as lists of Unicode scalar values
(Lean `Char`).  `Buffer.from(str)` / `buf.toString('utf-8')` are modelled
by an executable UTF-8 encoder/decoder on byte lists (bytes as `Nat`),
Node's lenient base64 decoder (`Buffer.from(s, 'base64')` ignores
characters outside the alphabet and never throws) by a filtering decoder,
and `crypto.createHmac('sha256', secret)` by a full executable SHA-256 /
HMAC implementation.  `new Date(s)` (timestamp parsing) and `new Date()`
(the current instant) are external to the repository and are passed in as
explicit parameters `parseDate : JStr → Option Int` and `now : Int`
(`NaN` from an unparseable date is `none`; JavaScript's `NaN <= x`
comparison is `false`).
-/

namespace Traducteur

/-- A JavaScript string: a list of Unicode scalar values. -/
abbrev JStr := List Char

/-! ## UTF-8 (model of `Buffer.from(str)` / `buf.toString('utf-8')`) -/

/-- UTF-8 encoding of a single code point (at most 4 bytes). -/
def utf8EncodeChar (c : Nat) : List Nat :=
  if c < 0x80 then [c]
  else if c < 0x800 then [0xC0 + c / 64, 0x80 + c % 64]
  else if c < 0x10000 then [0xE0 + c / 4096, 0x80 + c / 64 % 64, 0x80 + c % 64]
  else [0xF0 + c / 262144, 0x80 + c / 4096 % 64, 0x80 + c / 64 % 64, 0x80 + c % 64]

/-- UTF-8 encoding of a string, as `Buffer.from(str)` produces. -/
def utf8Encode (s : JStr) : List Nat :=
  (s.map (fun c => utf8EncodeChar c.toNat)).flatten

/-- Fuel-indexed UTF-8 decoder; `fuel` only needs to dominate the list
length (see `utf8DecodeGo_fuel`), it makes the recursion structural. -/
def utf8DecodeGo : Nat → List Nat → List Char
  | 0, _ => []
  | _, [] => []
  | fuel + 1, b1 :: bs =>
    if b1 < 0x80 then Char.ofNat b1 :: utf8DecodeGo fuel bs
    else if b1 < 0xC0 then Char.ofNat 0xFFFD :: utf8DecodeGo fuel bs
    else if b1 < 0xE0 then
      if 1 ≤ bs.length ∧ 0x80 ≤ bs.getD 0 0 ∧ bs.getD 0 0 < 0xC0 then
        Char.ofNat ((b1 - 0xC0) * 64 + (bs.getD 0 0 - 0x80)) :: utf8DecodeGo fuel (bs.drop 1)
      else Char.ofNat 0xFFFD :: utf8DecodeGo fuel bs
    else if b1 < 0xF0 then
      if 2 ≤ bs.length ∧ 0x80 ≤ bs.getD 0 0 ∧ bs.getD 0 0 < 0xC0
          ∧ 0x80 ≤ bs.getD 1 0 ∧ bs.getD 1 0 < 0xC0 then
        Char.ofNat ((b1 - 0xE0) * 4096 + (bs.getD 0 0 - 0x80) * 64 + (bs.getD 1 0 - 0x80))
          :: utf8DecodeGo fuel (bs.drop 2)
      else Char.ofNat 0xFFFD :: utf8DecodeGo fuel bs
    else
      if 3 ≤ bs.length ∧ 0x80 ≤ bs.getD 0 0 ∧ bs.getD 0 0 < 0xC0
          ∧ 0x80 ≤ bs.getD 1 0 ∧ bs.getD 1 0 < 0xC0
          ∧ 0x80 ≤ bs.getD 2 0 ∧ bs.getD 2 0 < 0xC0 then
        Char.ofNat ((b1 - 0xF0) * 262144 + (bs.getD 0 0 - 0x80) * 4096
            + (bs.getD 1 0 - 0x80) * 64 + (bs.getD 2 0 - 0x80))
          :: utf8DecodeGo fuel (bs.drop 3)
      else Char.ofNat 0xFFFD :: utf8DecodeGo fuel bs

/-- UTF-8 decoding, as `buf.toString('utf-8')` performs; invalid
sequences produce the replacement character U+FFFD (Node never throws). -/
def utf8Decode (l : List Nat) : List Char := utf8DecodeGo l.length l

/-! ## Base64 / base64url
Model of `Buffer.toString('base64')` and of Node's lenient base64 decoder
(`Buffer.from(s, 'base64')` ignores characters outside the alphabet and
never throws). -/

/-- The standard base64 alphabet. -/
def b64Table : List Char :=
  "ABCDEFGHIJKLMNOPQRSTUVWXYZabcdefghijklmnopqrstuvwxyz0123456789+/".toList

/-- Byte triples to 6-bit groups (the final 1 or 2 bytes give 2 or 3 groups). -/
def sextetsOfBytes : List Nat → List Nat
  | [] => []
  | [b1] => [b1 / 4, b1 % 4 * 16]
  | [b1, b2] => [b1 / 4, b1 % 4 * 16 + b2 / 16, b2 % 16 * 4]
  | b1 :: b2 :: b3 :: rest =>
    b1 / 4 :: (b1 % 4 * 16 + b2 / 16) :: (b2 % 16 * 4 + b3 / 64) :: b3 % 64
      :: sextetsOfBytes rest

/-- 6-bit groups back to bytes; a lone trailing group carries no byte. -/
def bytesOfSextets : List Nat → List Nat
  | [] => []
  | [_] => []
  | [s1, s2] => [s1 * 4 + s2 / 16]
  | [s1, s2, s3] => [s1 * 4 + s2 / 16, s2 % 16 * 16 + s3 / 4]
  | s1 :: s2 :: s3 :: s4 :: rest =>
    (s1 * 4 + s2 / 16) :: (s2 % 16 * 16 + s3 / 4) :: (s3 % 4 * 64 + s4) :: bytesOfSextets rest

/-- Base64 padding characters for a byte string of the given length. -/
def b64PadChars (len : Nat) : List Char := List.replicate ((3 - len % 3) % 3) '='

/-- `buf.toString('base64')`: standard base64 with padding. -/
def base64Encode (bs : List Nat) : List Char :=
  (sextetsOfBytes bs).map (fun x => b64Table.getD x 'A') ++ b64PadChars bs.length

/-- The alphabet index of a character, `none` for characters outside the
alphabet ('=' included): Node's decoder simply skips those. -/
def sextetOfChar (c : Char) : Option Nat :=
  (List.range 64).find? (fun i => b64Table.getD i 'A' == c)

/-- Node's lenient `Buffer.from(s, 'base64')`. -/
def base64DecodeBytes (s : List Char) : List Nat :=
  bytesOfSextets (s.filterMap sextetOfChar)

/-- The global replace of plus by minus, per character. -/
def repPlus (c : Char) : Char := if c = '+' then '-' else c

/-- The global replace of slash by underscore, per character. -/
def repSlash (c : Char) : Char := if c = '/' then '_' else c

/-- The global replace of minus by plus, per character. -/
def repMinus (c : Char) : Char := if c = '-' then '+' else c

/-- The global replace of underscore by slash, per character. -/
def repUnderscore (c : Char) : Char := if c = '_' then '/' else c

/-- `base64UrlEncode` from src/utils/hmac.ts: UTF-8 bytes, base64, then
the three global replaces (`+` to `-`, `/` to `_`, `=` removed). -/
def base64UrlEncode (s : JStr) : JStr :=
  (((base64Encode (utf8Encode s)).map repPlus).map repSlash).filter (fun c => c ≠ '=')

/-- `base64UrlDecode` from src/utils/hmac.ts: re-add padding, undo the
URL-safe replaces, then decode base64 and UTF-8. -/
def base64UrlDecode (s : JStr) : JStr :=
  let padding := List.replicate ((4 - s.length % 4) % 4) '='
  let base64 := ((s.map repMinus).map repUnderscore) ++ padding
  utf8Decode (base64DecodeBytes base64)

/-! ## SHA-256 and HMAC-SHA256
Executable model of `crypto.createHmac('sha256', secret).update(payload).digest('hex')`
(FIPS 180-4 / RFC 2104), on bytes represented as `Nat`. -/

/-- Truncation to 32 bits. -/
def w32 (n : Nat) : Nat := n % 4294967296

/-- 32-bit rotate right. -/
def rotr32 (n x : Nat) : Nat := w32 (x >>> n ||| x <<< (32 - n))

def bigSigma0 (x : Nat) : Nat := rotr32 2 x ^^^ rotr32 13 x ^^^ rotr32 22 x

def bigSigma1 (x : Nat) : Nat := rotr32 6 x ^^^ rotr32 11 x ^^^ rotr32 25 x

def smallSigma0 (x : Nat) : Nat := rotr32 7 x ^^^ rotr32 18 x ^^^ (x >>> 3)

def smallSigma1 (x : Nat) : Nat := rotr32 17 x ^^^ rotr32 19 x ^^^ (x >>> 10)

def chF (x y z : Nat) : Nat := (x &&& y) ^^^ ((x ^^^ 0xFFFFFFFF) &&& z)

def majF (x y z : Nat) : Nat := (x &&& y) ^^^ (x &&& z) ^^^ (y &&& z)

/-- The 64 SHA-256 round constants of FIPS 180-4, written in decimal. -/
def sha256K : List Nat :=
  [1116352408, 1899447441, 3049323471, 3921009573, 961987163, 1508970993,
   2453635748, 2870763221, 3624381080, 310598401, 607225278, 1426881987,
   1925078388, 2162078206, 2614888103, 3248222580, 3835390401, 4022224774,
   264347078, 604807628, 770255983, 1249150122, 1555081692, 1996064986,
   2554220882, 2821834349, 2952996808, 3210313671, 3336571891, 3584528711,
   113926993, 338241895, 666307205, 773529912, 1294757372, 1396182291,
   1695183700, 1986661051, 2177026350, 2456956037, 2730485921, 2820302411,
   3259730800, 3345764771, 3516065817, 3600352804, 4094571909, 275423344,
   430227734, 506948616, 659060556, 883997877, 958139571, 1322822218,
   1537002063, 1747873779, 1955562222, 2024104815, 2227730452, 2361852424,
   2428436474, 2756734187, 3204031479, 3329325298]

/-- The 8 SHA-256 initial hash words of FIPS 180-4, written in decimal. -/
def sha256H0 : List Nat :=
  [1779033703, 3144134277, 1013904242, 2773480762, 1359893119, 2600822924,
   528734635, 1541459225]

/-- The 16 big-endian 32-bit words of a 64-byte block. -/
def words16 (block : List Nat) : List Nat :=
  (List.range 16).map (fun i =>
    block.getD (4 * i) 0 * 16777216 + block.getD (4 * i + 1) 0 * 65536
      + block.getD (4 * i + 2) 0 * 256 + block.getD (4 * i + 3) 0)

/-- Extend the message schedule by the given number of words. -/
def sha256Extend (ws : List Nat) : Nat → List Nat
  | 0 => ws
  | k + 1 =>
    sha256Extend
      (ws ++ [w32 (smallSigma1 (ws.getD (ws.length - 2) 0) + ws.getD (ws.length - 7) 0
        + smallSigma0 (ws.getD (ws.length - 15) 0) + ws.getD (ws.length - 16) 0)]) k

/-- One SHA-256 round on the 8-word working state. -/
def sha256Round (st : List Nat) (kw : Nat × Nat) : List Nat :=
  let a := st.getD 0 0
  let b := st.getD 1 0
  let c := st.getD 2 0
  let d := st.getD 3 0
  let e := st.getD 4 0
  let f := st.getD 5 0
  let g := st.getD 6 0
  let h := st.getD 7 0
  let t1 := w32 (h + bigSigma1 e + chF e f g + kw.1 + kw.2)
  let t2 := w32 (bigSigma0 a + majF a b c)
  [w32 (t1 + t2), a, b, c, w32 (d + t1), e, f, g]

/-- Compression of one 64-byte block into the 8-word state. -/
def sha256Compress (st : List Nat) (block : List Nat) : List Nat :=
  let ws := sha256Extend (words16 block) 48
  let fin := (sha256K.zip ws).foldl sha256Round st
  List.zipWith (fun x y => w32 (x + y)) st fin

/-- SHA-256 padding: a 0x80 byte, zeros, and the 8-byte big-endian bit length. -/
def sha256PadMsg (msg : List Nat) : List Nat :=
  let len := msg.length
  let bits := len * 8
  msg ++ [0x80] ++ List.replicate ((119 - len % 64) % 64) 0
    ++ [bits / 72057594037927936 % 256, bits / 281474976710656 % 256,
        bits / 1099511627776 % 256, bits / 4294967296 % 256,
        bits / 16777216 % 256, bits / 65536 % 256, bits / 256 % 256, bits % 256]

/-- Split a byte list into 64-byte chunks. -/
def chunks64 (l : List Nat) : List (List Nat) :=
  (List.range ((l.length + 63) / 64)).map (fun i => (l.drop (64 * i)).take 64)

/-- SHA-256 of a byte list, as 32 bytes. -/
def sha256 (msg : List Nat) : List Nat :=
  let final := (chunks64 (sha256PadMsg msg)).foldl sha256Compress sha256H0
  (final.map (fun x => [x / 16777216 % 256, x / 65536 % 256, x / 256 % 256, x % 256])).flatten

/-- HMAC-SHA256 (RFC 2104, block size 64): keys longer than one block are
hashed first, shorter keys are zero-padded to the block size. -/
def hmacSha256 (key msg : List Nat) : List Nat :=
  let k0 := if 64 < key.length then sha256 key else key
  let kpad := k0 ++ List.replicate (64 - k0.length) 0
  sha256 ((kpad.map (fun b => b ^^^ 0x5c)) ++ sha256 ((kpad.map (fun b => b ^^^ 0x36)) ++ msg))

def hexTable : List Char := "0123456789abcdef".toList

/-- Lowercase hex rendering of a byte list, as `.digest('hex')` produces. -/
def toHex (bs : List Nat) : List Char :=
  (bs.map (fun b => [hexTable.getD (b / 16) '0', hexTable.getD (b % 16) '0'])).flatten

/-- `generateSignature` from src/utils/hmac.ts. -/
def generateSignature (payload secret : JStr) : JStr :=
  toHex (hmacSha256 (utf8Encode secret) (utf8Encode payload))

/-! ## The activation-key codec (src/utils/hmac.ts) -/

/-- `ActivationPayload` from src/utils/hmac.ts. -/
structure ActivationPayload where
  identifier : JStr
  expiry : JStr
  plan : JStr
  nonce : JStr
deriving DecidableEq, Repr

/-- `VerificationResult` from src/utils/hmac.ts: `valid` plus the two
optional fields (absent fields modelled as `none`). -/
structure VerificationResult where
  valid : Bool
  payload : Option ActivationPayload
  reason : Option JStr
deriving DecidableEq, Repr

/-- JavaScript `str.split(sep)` for a one-character separator. -/
def jsSplit (sep : Char) : JStr → List JStr
  | [] => [[]]
  | c :: cs =>
    let r := jsSplit sep cs
    if c = sep then [] :: r else (c :: r.headD []) :: r.tail

/-- `createActivationKey` from src/utils/hmac.ts.  Note: the source
performs no validation of its inputs whatsoever. -/
def createActivationKey (identifier expiry plan nonce secret : JStr) : JStr :=
  let payload := identifier ++ '|' :: (expiry ++ '|' :: (plan ++ '|' :: nonce))
  let signature := generateSignature payload secret
  let fullKey := payload ++ '.' :: signature
  base64UrlEncode fullKey

def reasonPayloadFormat : JStr := "Invalid payload format".toList

def reasonNonceSigFormat : JStr := "Invalid nonce/signature format".toList

def reasonBadSignature : JStr := "Invalid signature".toList

def reasonBadExpiryFormat : JStr := "Invalid expiry date format".toList

def reasonExpired : JStr := "Key has expired".toList

/-- The reason string of the catch-all branch of `verifyActivationKey`.
That branch is unreachable: Node's `Buffer.from(str, 'base64')` and
`buf.toString('utf-8')` never throw (invalid characters are skipped,
invalid UTF-8 becomes U+FFFD), and neither do `split`, template strings,
`createHmac`, or the `Date` constructor, so the `try` body is total. -/
def reasonDecodingFailed : JStr := "Key decoding failed".toList

/-- `verifyActivationKey` from src/utils/hmac.ts.  `parseDate` and `now`
stand for `new Date(expiry)` and `new Date()`; `parseDate` returning
`none` is an `isNaN` timestamp, and the JavaScript comparison
`expiryDate <= now` is false when `expiryDate` is `NaN`. -/
def verifyActivationKey (key secret : JStr) (parseDate : JStr → Option Int) (now : Int) :
    VerificationResult :=
  let decoded := base64UrlDecode key
  let parts := jsSplit '|' decoded
  if parts.length ≠ 4 then
    { valid := false, payload := none, reason := some reasonPayloadFormat }
  else
    let identifier := parts.getD 0 []
    let expiry := parts.getD 1 []
    let plan := parts.getD 2 []
    let nonceAndSig := parts.getD 3 []
    let lastParts := jsSplit '.' nonceAndSig
    if lastParts.length ≠ 2 then
      { valid := false, payload := none, reason := some reasonNonceSigFormat }
    else
      let nonce := lastParts.getD 0 []
      let signature := lastParts.getD 1 []
      let payload := identifier ++ '|' :: (expiry ++ '|' :: (plan ++ '|' :: nonce))
      let expectedSignature := generateSignature payload secret
      if signature ≠ expectedSignature then
        { valid := false, payload := none, reason := some reasonBadSignature }
      else
        match parseDate expiry with
        | none => { valid := false, payload := none, reason := some reasonBadExpiryFormat }
        | some t =>
          if t ≤ now then
            { valid := false, payload := none, reason := some reasonExpired }
          else
            { valid := true, payload := some ⟨identifier, expiry, plan, nonce⟩, reason := none }

/-! ## The session registry (src/services/activationService.ts)
The service's private `Map<string, ActivationSession>` is modelled as an
association list in insertion order; `mapGet`, `mapSet` and `mapDelete`
are `Map.get`, `Map.set` (insert-or-replace) and `Map.delete`.  The
secret, the date parser, and the clock are explicit parameters, and each
method returns its result together with the updated state. -/

/-- `ActivationSession` from src/services/activationService.ts
(`activatedAt: Date` as an instant). -/
structure ActivationSession where
  identifier : JStr
  plan : JStr
  expiry : JStr
  activatedAt : Int
deriving DecidableEq, Repr

abbrev RegState := List (JStr × ActivationSession)

def mapGet : RegState → JStr → Option ActivationSession
  | [], _ => none
  | (k, v) :: rest, key => if k = key then some v else mapGet rest key

def mapSet : RegState → JStr → ActivationSession → RegState
  | [], key, v => [(key, v)]
  | (k, w) :: rest, key, v =>
    if k = key then (key, v) :: rest else (k, w) :: mapSet rest key v

def mapDelete : RegState → JStr → RegState
  | [], _ => []
  | (k, w) :: rest, key => if k = key then rest else (k, w) :: mapDelete rest key

/-- The result record of `ActivationService.activate`. -/
structure ActivateResult where
  ok : Bool
  identifier : Option JStr
  plan : Option JStr
  expiry : Option JStr
  reason : Option JStr
deriving DecidableEq, Repr

/-- `ActivationService.activate`; `now` serves for both verification and
`activatedAt` (the source calls `new Date()` in both places). -/
def activate (secret : JStr) (parseDate : JStr → Option Int) (now : Int) (key : JStr)
    (st : RegState) : ActivateResult × RegState :=
  let verification := verifyActivationKey key secret parseDate now
  if verification.valid = false ∨ verification.payload = none then
    ({ ok := false, identifier := none, plan := none, expiry := none,
       reason := verification.reason }, st)
  else
    let p := verification.payload.getD ⟨[], [], [], []⟩
    ({ ok := true, identifier := some p.identifier, plan := some p.plan,
       expiry := some p.expiry, reason := none },
     mapSet st p.identifier ⟨p.identifier, p.plan, p.expiry, now⟩)

/-- `ActivationService.isActive` (lazy expiry).  An unparseable stored
expiry gives `NaN <= now`, which is false in JavaScript, hence `true`
with no deletion. -/
def isActive (parseDate : JStr → Option Int) (now : Int) (identifier : JStr)
    (st : RegState) : Bool × RegState :=
  match mapGet st identifier with
  | none => (false, st)
  | some session =>
    match parseDate session.expiry with
    | none => (true, st)
    | some t => if t ≤ now then (false, mapDelete st identifier) else (true, st)

/-- `ActivationService.getSession`: read-only lookup. -/
def getSession (identifier : JStr) (st : RegState) : Option ActivationSession :=
  mapGet st identifier

/-- `ActivationService.cleanExpiredSessions`. -/
def cleanExpiredSessions (parseDate : JStr → Option Int) (now : Int) (st : RegState) :
    RegState :=
  st.filter (fun e =>
    match parseDate e.2.expiry with
    | none => true
    | some t => if t ≤ now then false else true)

/-- One call to the service, with the instant at which it happens. -/
inductive RegOp where
  | activateOp (key : JStr) (now : Int)
  | isActiveOp (identifier : JStr) (now : Int)
  | getSessionOp (identifier : JStr)
  | cleanOp (now : Int)

/-- The state transition of one service call. -/
def regStep (secret : JStr) (parseDate : JStr → Option Int) (st : RegState) :
    RegOp → RegState
  | .activateOp key now => (activate secret parseDate now key st).2
  | .isActiveOp identifier now => (isActive parseDate now identifier st).2
  | .getSessionOp _ => st
  | .cleanOp now => cleanExpiredSessions parseDate now st

/-- The registry state after a sequence of service calls, starting from
the empty map of a fresh `ActivationService`. -/
def regRun (secret : JStr) (parseDate : JStr → Option Int) (ops : List RegOp) : RegState :=
  ops.foldl (regStep secret parseDate) []

/-- The key-consistency invariant: every stored entry records under its
map key a session whose `identifier` field is that key. -/
def KeysMatch (st : RegState) : Prop := ∀ e ∈ st, e.2.identifier = e.1

/-! ## Claim-side auxiliary definitions -/

/-- A concrete date parser for witnesses: the expiry text "E" denotes
the instant 1, everything else is unparseable. -/
def pdE : JStr → Option Int := fun s => if s = "E".toList then some 1 else none

/-- Verification as the specification's §4.1 words order it (for the
order-of-checks comparison of C2): split the decoded text on the LAST
occurrence of the dot into payload and signature first (failing with the
signature-section reason when there is no dot), and only then split the
payload on the field delimiter expecting 4 fields. -/
def verifySpecOrder (key secret : JStr) (pd : JStr → Option Int) (now : Int) :
    VerificationResult :=
  let decoded := base64UrlDecode key
  let segs := jsSplit '.' decoded
  if segs.length < 2 then
    { valid := false, payload := none, reason := some reasonNonceSigFormat }
  else
    let payload := List.intercalate ['.'] segs.dropLast
    let signature := segs.getLastD []
    let parts := jsSplit '|' payload
    if parts.length ≠ 4 then
      { valid := false, payload := none, reason := some reasonPayloadFormat }
    else
      let identifier := parts.getD 0 []
      let expiry := parts.getD 1 []
      let plan := parts.getD 2 []
      let nonce := parts.getD 3 []
      if signature ≠ generateSignature (identifier ++ '|' :: (expiry ++ '|'
          :: (plan ++ '|' :: nonce))) secret then
        { valid := false, payload := none, reason := some reasonBadSignature }
      else
        match pd expiry with
        | none => { valid := false, payload := none, reason := some reasonBadExpiryFormat }
        | some t =>
          if t ≤ now then { valid := false, payload := none, reason := some reasonExpired }
          else { valid := true, payload := some ⟨identifier, expiry, plan, nonce⟩,
                 reason := none }

/-- Stage 1 of the pipeline in the order the code actually performs it:
split the whole decoded string on the field delimiter, expecting exactly
4 fields. -/
def stageFields (decoded : JStr) : Except JStr (JStr × JStr × JStr × JStr) :=
  let parts := jsSplit '|' decoded
  if parts.length ≠ 4 then Except.error reasonPayloadFormat
  else Except.ok (parts.getD 0 [], parts.getD 1 [], parts.getD 2 [], parts.getD 3 [])

/-- Stage 2: split the fourth field on the dot, expecting exactly 2 parts. -/
def stageNonceSig (nonceAndSig : JStr) : Except JStr (JStr × JStr) :=
  let lastParts := jsSplit '.' nonceAndSig
  if lastParts.length ≠ 2 then Except.error reasonNonceSigFormat
  else Except.ok (lastParts.getD 0 [], lastParts.getD 1 [])

/-- Stage 3: recompute the signature over the reassembled payload and
compare; `none` means the check passes. -/
def stageSignature (secret identifier expiry plan nonce signature : JStr) : Option JStr :=
  if signature ≠ generateSignature (identifier ++ '|' :: (expiry ++ '|'
      :: (plan ++ '|' :: nonce))) secret then some reasonBadSignature
  else none

/-- Stage 4: parse the expiry and require it strictly in the future;
`none` means the check passes. -/
def stageExpiry (pd : JStr → Option Int) (now : Int) (expiry : JStr) : Option JStr :=
  match pd expiry with
  | none => some reasonBadExpiryFormat
  | some t => if t ≤ now then some reasonExpired else none

/-- The session stored by the C7 witness state. -/
def sessU : ActivationSession := ⟨"u".toList, "p".toList, "E".toList, 0⟩

theorem utf8DecodeGo_nil (f : Nat) : utf8DecodeGo f [] = [] := by
  cases f <;> rfl

theorem utf8DecodeGo_fuel (f1 : Nat) : ∀ (f2 : Nat) (l : List Nat),
    l.length ≤ f1 → l.length ≤ f2 → utf8DecodeGo f1 l = utf8DecodeGo f2 l := by
  induction f1 with
  | zero =>
    intro f2 l h1 _
    have : l = [] := List.length_eq_zero.mp (Nat.le_zero.mp h1)
    subst this
    rw [utf8DecodeGo_nil, utf8DecodeGo_nil]
  | succ f ih =>
    intro f2 l h1 h2
    match l, f2 with
    | [], _ => rw [utf8DecodeGo_nil, utf8DecodeGo_nil]
    | b1 :: bs, 0 => simp at h2
    | b1 :: bs, g + 1 =>
      have hlen : bs.length ≤ f := by simpa using h1
      have hlen2 : bs.length ≤ g := by simpa using h2
      show utf8DecodeGo (f + 1) (b1 :: bs) = utf8DecodeGo (g + 1) (b1 :: bs)
      rw [utf8DecodeGo, utf8DecodeGo]
      split_ifs <;> (congr 1; apply ih <;> (try simp only [List.length_drop]) <;> omega)

theorem char_toNat_lt (c : Char) : c.toNat < 0x110000 := by
  rcases c.valid with h | ⟨_, h⟩
  · exact Nat.lt_trans h (by norm_num)
  · exact h

theorem utf8Decode_encodeChar (n : Nat) (hn : n < 0x110000) (rest : List Nat) :
    utf8Decode (utf8EncodeChar n ++ rest) = Char.ofNat n :: utf8Decode rest := by
  unfold utf8EncodeChar utf8Decode
  by_cases h1 : n < 0x80
  · simp only [if_pos h1, List.cons_append, List.nil_append, List.length_cons]
    rw [utf8DecodeGo, if_pos h1]
  · by_cases h2 : n < 0x800
    · simp only [if_neg h1, if_pos h2, List.cons_append, List.nil_append, List.length_cons]
      rw [utf8DecodeGo]
      simp only [List.length_cons, List.getD_cons_zero, List.getD_cons_succ,
        List.drop_succ_cons, List.drop_zero]
      rw [if_neg (by omega), if_neg (by omega), if_pos (by omega), if_pos (by omega)]
      have harg : (0xC0 + n / 64 - 0xC0) * 64 + (0x80 + n % 64 - 0x80) = n := by omega
      rw [harg, utf8DecodeGo_fuel (rest.length + 1) rest.length rest (by omega) (by omega)]
    · by_cases h3 : n < 0x10000
      · simp only [if_neg h1, if_neg h2, if_pos h3, List.cons_append, List.nil_append,
          List.length_cons]
        rw [utf8DecodeGo]
        simp only [List.length_cons, List.getD_cons_zero, List.getD_cons_succ,
          List.drop_succ_cons, List.drop_zero]
        rw [if_neg (by omega), if_neg (by omega), if_neg (by omega), if_pos (by omega),
          if_pos (by omega)]
        have harg : (0xE0 + n / 4096 - 0xE0) * 4096 + (0x80 + n / 64 % 64 - 0x80) * 64
            + (0x80 + n % 64 - 0x80) = n := by omega
        rw [harg, utf8DecodeGo_fuel (rest.length + 1 + 1) rest.length rest (by omega) (by omega)]
      · simp only [if_neg h1, if_neg h2, if_neg h3, List.cons_append, List.nil_append,
          List.length_cons]
        rw [utf8DecodeGo]
        simp only [List.length_cons, List.getD_cons_zero, List.getD_cons_succ,
          List.drop_succ_cons, List.drop_zero]
        rw [if_neg (by omega), if_neg (by omega), if_neg (by omega), if_neg (by omega),
          if_pos (by omega)]
        have harg : (0xF0 + n / 262144 - 0xF0) * 262144 + (0x80 + n / 4096 % 64 - 0x80) * 4096
            + (0x80 + n / 64 % 64 - 0x80) * 64 + (0x80 + n % 64 - 0x80) = n := by omega
        rw [harg,
          utf8DecodeGo_fuel (rest.length + 1 + 1 + 1) rest.length rest (by omega) (by omega)]

theorem utf8Decode_utf8Encode (s : JStr) : utf8Decode (utf8Encode s) = s := by
  induction s with
  | nil => rfl
  | cons c cs ih =>
    have hc : c.toNat < 0x110000 := char_toNat_lt c
    calc utf8Decode (utf8Encode (c :: cs))
        = utf8Decode (utf8EncodeChar c.toNat ++ utf8Encode cs) := by
          simp only [utf8Encode, List.map_cons, List.flatten_cons]
      _ = Char.ofNat c.toNat :: utf8Decode (utf8Encode cs) :=
          utf8Decode_encodeChar c.toNat hc _
      _ = c :: cs := by rw [ih, Char.ofNat_toNat]

theorem bytesOfSextets_sextetsOfBytes (bs : List Nat) (hb : ∀ b ∈ bs, b < 256) :
    bytesOfSextets (sextetsOfBytes bs) = bs := by
  induction bs using sextetsOfBytes.induct with
  | case1 => rfl
  | case2 b1 =>
    have h1 : b1 < 256 := hb b1 (by simp)
    simp only [sextetsOfBytes, bytesOfSextets, List.cons.injEq, and_true]
    omega
  | case3 b1 b2 =>
    have h1 : b1 < 256 := hb b1 (by simp)
    have h2 : b2 < 256 := hb b2 (by simp)
    simp only [sextetsOfBytes, bytesOfSextets, List.cons.injEq, and_true]
    constructor <;> omega
  | case4 b1 b2 b3 rest ih =>
    have h1 : b1 < 256 := hb b1 (by simp)
    have h2 : b2 < 256 := hb b2 (by simp)
    have h3 : b3 < 256 := hb b3 (by simp)
    have hrest : ∀ b ∈ rest, b < 256 := fun b hmem => hb b (by simp [hmem])
    simp only [sextetsOfBytes, bytesOfSextets, List.cons.injEq]
    refine ⟨by omega, by omega, by omega, ih hrest⟩

theorem sextetsOfBytes_lt (bs : List Nat) (hb : ∀ b ∈ bs, b < 256) :
    ∀ x ∈ sextetsOfBytes bs, x < 64 := by
  induction bs using sextetsOfBytes.induct with
  | case1 => simp [sextetsOfBytes]
  | case2 b1 =>
    have h1 : b1 < 256 := hb b1 (by simp)
    simp only [sextetsOfBytes, List.mem_cons, List.not_mem_nil, or_false]
    rintro x (rfl | rfl) <;> omega
  | case3 b1 b2 =>
    have h1 : b1 < 256 := hb b1 (by simp)
    have h2 : b2 < 256 := hb b2 (by simp)
    simp only [sextetsOfBytes, List.mem_cons, List.not_mem_nil, or_false]
    rintro x (rfl | rfl | rfl) <;> omega
  | case4 b1 b2 b3 rest ih =>
    have h1 : b1 < 256 := hb b1 (by simp)
    have h2 : b2 < 256 := hb b2 (by simp)
    have h3 : b3 < 256 := hb b3 (by simp)
    have hrest : ∀ b ∈ rest, b < 256 := fun b hmem => hb b (by simp [hmem])
    simp only [sextetsOfBytes, List.mem_cons]
    rintro x (rfl | rfl | rfl | rfl | hx)
    · omega
    · omega
    · omega
    · omega
    · exact ih hrest x hx

theorem utf8EncodeChar_lt (n : Nat) (hn : n < 0x110000) : ∀ b ∈ utf8EncodeChar n, b < 256 := by
  unfold utf8EncodeChar
  by_cases h1 : n < 0x80
  · simp only [if_pos h1, List.mem_singleton]
    omega
  · by_cases h2 : n < 0x800
    · simp only [if_neg h1, if_pos h2, List.mem_cons, List.not_mem_nil, or_false]
      rintro b (rfl | rfl) <;> omega
    · by_cases h3 : n < 0x10000
      · simp only [if_neg h1, if_neg h2, if_pos h3, List.mem_cons, List.not_mem_nil, or_false]
        rintro b (rfl | rfl | rfl) <;> omega
      · simp only [if_neg h1, if_neg h2, if_neg h3, List.mem_cons, List.not_mem_nil, or_false]
        rintro b (rfl | rfl | rfl | rfl) <;> omega

theorem utf8Encode_lt (s : JStr) : ∀ b ∈ utf8Encode s, b < 256 := by
  intro b hmem
  simp only [utf8Encode, List.mem_flatten, List.mem_map] at hmem
  obtain ⟨l, ⟨c, _, rfl⟩, hbl⟩ := hmem
  exact utf8EncodeChar_lt c.toNat (char_toNat_lt c) b hbl

/-- Round-tripping an alphabet character through the URL-safe replaces
and back recovers its alphabet index. -/
theorem sextetOfChar_roundtrip : ∀ n, n < 64 →
    sextetOfChar (repUnderscore (repMinus (repSlash (repPlus (b64Table.getD n 'A'))))) = some n
  := by decide

/-- URL-safe-replaced alphabet characters are never the padding character. -/
theorem repSlash_repPlus_ne_eq : ∀ n, n < 64 →
    repSlash (repPlus (b64Table.getD n 'A')) ≠ '=' := by decide

theorem sextetOfChar_eq_none : sextetOfChar '=' = none := by decide

theorem filterMap_id_of_some {α : Type} (f : α → Option α) :
    ∀ l : List α, (∀ a ∈ l, f a = some a) → l.filterMap f = l := by
  intro l h
  induction l with
  | nil => rfl
  | cons a l ih =>
    rw [List.filterMap_cons, h a (by simp)]
    rw [ih (fun b hb => h b (by simp [hb]))]

theorem filter_ne_eq_replicate (k : Nat) :
    (List.replicate k '=').filter (fun c => c ≠ '=') = [] := by
  induction k with
  | zero => rfl
  | succ k ih =>
    rw [List.replicate_succ, List.filter_cons]
    simp [ih]

theorem filterMap_sextet_replicate (k : Nat) :
    (List.replicate k '=').filterMap sextetOfChar = [] := by
  induction k with
  | zero => rfl
  | succ k ih => rw [List.replicate_succ, List.filterMap_cons, sextetOfChar_eq_none, ih]

/-- Node's lenient decoding inverts `base64UrlEncode` exactly. -/
theorem base64UrlDecode_base64UrlEncode (s : JStr) :
    base64UrlDecode (base64UrlEncode s) = s := by
  have hb : ∀ b ∈ utf8Encode s, b < 256 := utf8Encode_lt s
  have hs : ∀ x ∈ sextetsOfBytes (utf8Encode s), x < 64 := sextetsOfBytes_lt _ hb
  have henc : base64UrlEncode s
      = (sextetsOfBytes (utf8Encode s)).map
          (fun x => repSlash (repPlus (b64Table.getD x 'A'))) := by
    unfold base64UrlEncode base64Encode
    rw [List.map_append, List.map_append, List.filter_append, List.map_map, List.map_map]
    have hpad : ((b64PadChars (utf8Encode s).length).map repPlus).map repSlash
        = List.replicate ((3 - (utf8Encode s).length % 3) % 3) '=' := by
      unfold b64PadChars
      rw [List.map_replicate, List.map_replicate,
        (by decide : repSlash (repPlus '=') = '=')]
    rw [hpad, filter_ne_eq_replicate, List.append_nil]
    apply List.filter_eq_self.mpr
    intro c hc
    rw [List.mem_map] at hc
    obtain ⟨x, hx, rfl⟩ := hc
    simpa using repSlash_repPlus_ne_eq x (hs x hx)
  rw [henc]
  show utf8Decode (base64DecodeBytes
      (((((sextetsOfBytes (utf8Encode s)).map
            (fun x => repSlash (repPlus (b64Table.getD x 'A')))).map repMinus).map repUnderscore)
        ++ List.replicate
            ((4 - ((sextetsOfBytes (utf8Encode s)).map
              (fun x => repSlash (repPlus (b64Table.getD x 'A')))).length % 4) % 4) '=')) = s
  unfold base64DecodeBytes
  rw [List.filterMap_append, filterMap_sextet_replicate, List.append_nil,
    List.map_map, List.map_map, List.filterMap_map]
  have hcomb : ∀ x ∈ sextetsOfBytes (utf8Encode s),
      (sextetOfChar ∘ (repUnderscore ∘ repMinus)
        ∘ fun x => repSlash (repPlus (b64Table.getD x 'A'))) x = some x := by
    intro x hx
    simpa [Function.comp] using sextetOfChar_roundtrip x (hs x hx)
  rw [filterMap_id_of_some _ _ hcomb]
  rw [bytesOfSextets_sextetsOfBytes _ hb, utf8Decode_utf8Encode]

/-! ## Structural lemmas about signatures, splitting, and verification -/

theorem hexTable_getD_ne (k : Nat) :
    hexTable.getD k '0' ≠ '|' ∧ hexTable.getD k '0' ≠ '.' := by
  by_cases h : k < 16
  · have hall : ∀ m, m < 16 → hexTable.getD m '0' ≠ '|' ∧ hexTable.getD m '0' ≠ '.' := by
      decide
    exact hall k h
  · have hlen : hexTable.length ≤ k := by
      rw [(by decide : hexTable.length = 16)]
      omega
    rw [List.getD_eq_default _ _ hlen]
    exact ⟨by decide, by decide⟩

theorem mem_toHex_ne (bs : List Nat) : ∀ c ∈ toHex bs, c ≠ '|' ∧ c ≠ '.' := by
  intro c hc
  simp only [toHex, List.mem_flatten, List.mem_map] at hc
  obtain ⟨l, ⟨b, _, rfl⟩, hcl⟩ := hc
  simp only [List.mem_cons, List.not_mem_nil, or_false] at hcl
  rcases hcl with rfl | rfl
  · exact hexTable_getD_ne _
  · exact hexTable_getD_ne _

theorem sig_no_pipe (payload secret : JStr) : '|' ∉ generateSignature payload secret :=
  fun h => (mem_toHex_ne _ _ h).1 rfl

theorem sig_no_dot (payload secret : JStr) : '.' ∉ generateSignature payload secret :=
  fun h => (mem_toHex_ne _ _ h).2 rfl

theorem jsSplit_of_not_mem (sep : Char) (l : JStr) (h : sep ∉ l) : jsSplit sep l = [l] := by
  induction l with
  | nil => rfl
  | cons c cs ih =>
    have hc : ¬ c = sep := fun hcg => h (hcg ▸ List.mem_cons_self c cs)
    have hcs : sep ∉ cs := fun hm => h (List.mem_cons_of_mem c hm)
    rw [jsSplit]
    simp [if_neg hc, ih hcs]

theorem jsSplit_append_sep (sep : Char) (l r : JStr) (h : sep ∉ l) :
    jsSplit sep (l ++ sep :: r) = l :: jsSplit sep r := by
  induction l with
  | nil => simp [jsSplit]
  | cons c cs ih =>
    have hc : ¬ c = sep := fun hcg => h (hcg ▸ List.mem_cons_self c cs)
    have hcs : sep ∉ cs := fun hm => h (List.mem_cons_of_mem c hm)
    rw [List.cons_append, jsSplit]
    simp only [if_neg hc, ih hcs]
    simp

/-- What verification does to a key produced by `createActivationKey`,
when the claim fields respect the structural constraints the codec's
delimiters impose: the checks reduce to the signature comparison under
the verifying secret, then the expiry checks. -/
theorem verify_create (id exp plan nonce sA sB : JStr) (pd : JStr → Option Int) (now : Int)
    (h1 : '|' ∉ id) (h2 : '|' ∉ exp) (h3 : '|' ∉ plan) (h4 : '|' ∉ nonce) (h5 : '.' ∉ nonce) :
    verifyActivationKey (createActivationKey id exp plan nonce sA) sB pd now =
      (if generateSignature (id ++ '|' :: (exp ++ '|' :: (plan ++ '|' :: nonce))) sA
          = generateSignature (id ++ '|' :: (exp ++ '|' :: (plan ++ '|' :: nonce))) sB then
        match pd exp with
        | none => { valid := false, payload := none, reason := some reasonBadExpiryFormat }
        | some t =>
          if t ≤ now then { valid := false, payload := none, reason := some reasonExpired }
          else { valid := true, payload := some ⟨id, exp, plan, nonce⟩, reason := none }
      else { valid := false, payload := none, reason := some reasonBadSignature }) := by
  have hsig_pipe := sig_no_pipe (id ++ '|' :: (exp ++ '|' :: (plan ++ '|' :: nonce))) sA
  have hsig_dot := sig_no_dot (id ++ '|' :: (exp ++ '|' :: (plan ++ '|' :: nonce))) sA
  simp only [createActivationKey, verifyActivationKey]
  rw [base64UrlDecode_base64UrlEncode]
  have hassoc :
      (id ++ '|' :: (exp ++ '|' :: (plan ++ '|' :: nonce)))
          ++ '.' :: generateSignature (id ++ '|' :: (exp ++ '|' :: (plan ++ '|' :: nonce))) sA
        = id ++ '|' :: (exp ++ '|' :: (plan ++ '|'
            :: (nonce ++ '.' :: generateSignature
                  (id ++ '|' :: (exp ++ '|' :: (plan ++ '|' :: nonce))) sA))) := by
    simp [List.append_assoc]
  rw [hassoc]
  have hnp : '|' ∉ nonce ++ '.' :: generateSignature
      (id ++ '|' :: (exp ++ '|' :: (plan ++ '|' :: nonce))) sA := by
    intro hmem
    rcases List.mem_append.mp hmem with hm | hm
    · exact h4 hm
    · rcases List.mem_cons.mp hm with hm | hm
      · exact absurd hm (by decide)
      · exact hsig_pipe hm
  rw [jsSplit_append_sep '|' id _ h1, jsSplit_append_sep '|' exp _ h2,
    jsSplit_append_sep '|' plan _ h3, jsSplit_of_not_mem '|' _ hnp]
  simp only [List.length_cons, List.length_nil, List.getD_cons_zero, List.getD_cons_succ]
  rw [if_neg (by omega)]
  rw [jsSplit_append_sep '.' nonce _ h5,
    jsSplit_of_not_mem '.' _ (sig_no_dot _ _)]
  simp only [List.length_cons, List.length_nil, List.getD_cons_zero, List.getD_cons_succ]
  rw [if_neg (by omega)]
  by_cases hsig : generateSignature (id ++ '|' :: (exp ++ '|' :: (plan ++ '|' :: nonce))) sA
      = generateSignature (id ++ '|' :: (exp ++ '|' :: (plan ++ '|' :: nonce))) sB
  · rw [if_pos hsig, if_neg (by simpa using hsig)]
  · rw [if_neg hsig, if_pos (by simpa using hsig)]

/-- Every verification outcome is either `valid` with a payload and no
reason, or invalid with no payload and one of the five reachable reason
strings (the catch-all `reasonDecodingFailed` is not among them). -/
theorem verify_shape (key secret : JStr) (pd : JStr → Option Int) (now : Int) :
    ((verifyActivationKey key secret pd now).valid = true
      ∧ (∃ p, (verifyActivationKey key secret pd now).payload = some p)
      ∧ (verifyActivationKey key secret pd now).reason = none)
    ∨ ((verifyActivationKey key secret pd now).valid = false
      ∧ (verifyActivationKey key secret pd now).payload = none
      ∧ ((verifyActivationKey key secret pd now).reason = some reasonPayloadFormat
        ∨ (verifyActivationKey key secret pd now).reason = some reasonNonceSigFormat
        ∨ (verifyActivationKey key secret pd now).reason = some reasonBadSignature
        ∨ (verifyActivationKey key secret pd now).reason = some reasonBadExpiryFormat
        ∨ (verifyActivationKey key secret pd now).reason = some reasonExpired)) := by
  simp only [verifyActivationKey]
  repeat' split
  all_goals simp

/-! ## Map and invariant lemmas for the registry -/

theorem mapGet_mapSet (st : RegState) (k : JStr) (v : ActivationSession) :
    mapGet (mapSet st k v) k = some v := by
  induction st with
  | nil => simp [mapSet, mapGet]
  | cons e rest ih =>
    obtain ⟨k1, w⟩ := e
    by_cases h : k1 = k
    · simp [mapSet, if_pos h, mapGet]
    · simp only [mapSet, if_neg h, mapGet, ih]

theorem mapGet_eq_none_of_not_mem (st : RegState) (k : JStr)
    (h : k ∉ st.map Prod.fst) : mapGet st k = none := by
  induction st with
  | nil => rfl
  | cons e rest ih =>
    obtain ⟨k1, w⟩ := e
    simp only [List.map_cons, List.mem_cons] at h
    push_neg at h
    simp only [mapGet]
    rw [if_neg (fun hk => h.1 hk.symm)]
    exact ih h.2

theorem mapGet_mapDelete (st : RegState) (k : JStr)
    (hnodup : (st.map Prod.fst).Nodup) : mapGet (mapDelete st k) k = none := by
  induction st with
  | nil => rfl
  | cons e rest ih =>
    obtain ⟨k1, w⟩ := e
    simp only [List.map_cons, List.nodup_cons] at hnodup
    by_cases h : k1 = k
    · simp only [mapDelete, if_pos h]
      exact mapGet_eq_none_of_not_mem rest k (h ▸ hnodup.1)
    · simp only [mapDelete, if_neg h, mapGet]
      exact ih hnodup.2

theorem keysMatch_mapSet (st : RegState) (k : JStr) (v : ActivationSession)
    (h : KeysMatch st) (hv : v.identifier = k) : KeysMatch (mapSet st k v) := by
  induction st with
  | nil =>
    intro e he
    simp only [mapSet, List.mem_singleton] at he
    subst he
    exact hv
  | cons hd rest ih =>
    obtain ⟨k1, w⟩ := hd
    intro e he
    by_cases hk : k1 = k
    · simp only [mapSet, if_pos hk, List.mem_cons] at he
      rcases he with rfl | he
      · exact hv
      · exact h e (List.mem_cons_of_mem _ he)
    · simp only [mapSet, if_neg hk, List.mem_cons] at he
      rcases he with rfl | he
      · exact h (k1, w) (List.mem_cons_self _ _)
      · exact ih (fun e2 he2 => h e2 (List.mem_cons_of_mem _ he2)) e he

theorem mem_mapDelete (st : RegState) (k : JStr) :
    ∀ e ∈ mapDelete st k, e ∈ st := by
  induction st with
  | nil => simp [mapDelete]
  | cons hd rest ih =>
    obtain ⟨k1, w⟩ := hd
    intro e he
    by_cases hk : k1 = k
    · simp only [mapDelete, if_pos hk] at he
      exact List.mem_cons_of_mem _ he
    · simp only [mapDelete, if_neg hk, List.mem_cons] at he
      rcases he with rfl | he
      · exact List.mem_cons_self _ _
      · exact List.mem_cons_of_mem _ (ih e he)

theorem keysMatch_mapDelete (st : RegState) (k : JStr) (h : KeysMatch st) :
    KeysMatch (mapDelete st k) :=
  fun e he => h e (mem_mapDelete st k e he)

theorem activate_snd (secret : JStr) (pd : JStr → Option Int) (now : Int) (key : JStr)
    (st : RegState) :
    (activate secret pd now key st).2 = st
    ∨ ∃ idf pl ex, (activate secret pd now key st).2 = mapSet st idf ⟨idf, pl, ex, now⟩ := by
  simp only [activate]
  split
  · left
    rfl
  · right
    exact ⟨_, _, _, rfl⟩

theorem isActive_snd (pd : JStr → Option Int) (now : Int) (identifier : JStr) (st : RegState) :
    (isActive pd now identifier st).2 = st
    ∨ (isActive pd now identifier st).2 = mapDelete st identifier := by
  simp only [isActive]
  repeat' split
  · left; rfl
  · left; rfl
  · right; rfl
  · left; rfl

theorem keysMatch_step (secret : JStr) (pd : JStr → Option Int) (st : RegState) (op : RegOp)
    (h : KeysMatch st) : KeysMatch (regStep secret pd st op) := by
  cases op with
  | activateOp key now =>
    rcases activate_snd secret pd now key st with heq | ⟨idf, pl, ex, heq⟩
    · simpa [regStep, heq] using h
    · simp only [regStep, heq]
      exact keysMatch_mapSet st idf ⟨idf, pl, ex, now⟩ h rfl
  | isActiveOp identifier now =>
    rcases isActive_snd pd now identifier st with heq | heq
    · simpa [regStep, heq] using h
    · simp only [regStep, heq]
      exact keysMatch_mapDelete st identifier h
  | getSessionOp identifier => exact h
  | cleanOp now =>
    intro e he
    exact h e (List.mem_of_mem_filter he)

/-! ## The claims -/

/-- C1 (amended): for every claims quadruple in which no field contains
the field delimiter AND the nonce contains no dot separator, and whose
expiry parses to a future instant, verifying the token produced by
`createActivationKey` with the same secret returns Valid carrying
exactly those four claim fields. -/
theorem roundtrip_verify_create (id exp plan nonce secret : JStr) (pd : JStr → Option Int)
    (now t : Int) (h1 : '|' ∉ id) (h2 : '|' ∉ exp) (h3 : '|' ∉ plan) (h4 : '|' ∉ nonce)
    (h5 : '.' ∉ nonce) (hpd : pd exp = some t) (hfut : now < t) :
    verifyActivationKey (createActivationKey id exp plan nonce secret) secret pd now
      = { valid := true, payload := some ⟨id, exp, plan, nonce⟩, reason := none } := by
  rw [verify_create id exp plan nonce secret secret pd now h1 h2 h3 h4 h5, if_pos rfl, hpd]
  have hnle : ¬ t ≤ now := by omega
  simp [hnle]

/-- C1 witness: the amended round-trip at a concrete quadruple. -/
theorem roundtrip_verify_create_witness :
    ('|' ∉ "a".toList ∧ '|' ∉ "E".toList ∧ '|' ∉ "p".toList ∧ '|' ∉ "n".toList
      ∧ '.' ∉ "n".toList ∧ pdE "E".toList = some 1 ∧ (0 : Int) < 1)
    ∧ verifyActivationKey
        (createActivationKey "a".toList "E".toList "p".toList "n".toList "s".toList)
        "s".toList pdE 0
      = { valid := true,
          payload := some ⟨"a".toList, "E".toList, "p".toList, "n".toList⟩,
          reason := none } :=
  ⟨⟨by decide, by decide, by decide, by decide, by decide, by decide, by decide⟩,
   roundtrip_verify_create "a".toList "E".toList "p".toList "n".toList "s".toList pdE 0 1
     (by decide) (by decide) (by decide) (by decide) (by decide) (by decide) (by decide)⟩

/-- C1 counterexample: a quadruple whose fields are all free of the
field delimiter and whose expiry is a future instant, but whose nonce
contains a dot; the claim as stated demands Valid, yet verification
fails with the nonce/signature-format reason. -/
theorem roundtrip_fails_with_dotted_nonce :
    ('|' ∉ "a".toList ∧ '|' ∉ "E".toList ∧ '|' ∉ "p".toList ∧ '|' ∉ ".".toList
      ∧ pdE "E".toList = some 1 ∧ (0 : Int) < 1)
    ∧ verifyActivationKey
        (createActivationKey "a".toList "E".toList "p".toList ".".toList "s".toList)
        "s".toList pdE 0
      = { valid := false, payload := none, reason := some reasonNonceSigFormat } :=
  ⟨⟨by decide, by decide, by decide, by decide, by decide, by decide⟩, by decide⟩

/-- C2 (amended): after reversing the text encoding, verification first
splits the whole decoded string on the field delimiter (MalformedPayload
unless exactly 4 fields), then splits the fourth field on the dot
(MalformedSignatureSection unless exactly 2 parts); the two structural
checks precede the signature check, which precedes the expiry checks. -/
theorem verify_staged_order (key secret : JStr) (pd : JStr → Option Int) (now : Int) :
    verifyActivationKey key secret pd now =
      (match stageFields (base64UrlDecode key) with
      | Except.error r => { valid := false, payload := none, reason := some r }
      | Except.ok (identifier, expiry, plan, nonceAndSig) =>
        match stageNonceSig nonceAndSig with
        | Except.error r => { valid := false, payload := none, reason := some r }
        | Except.ok (nonce, signature) =>
          match stageSignature secret identifier expiry plan nonce signature with
          | some r => { valid := false, payload := none, reason := some r }
          | none =>
            match stageExpiry pd now expiry with
            | some r => { valid := false, payload := none, reason := some r }
            | none => { valid := true, payload := some ⟨identifier, expiry, plan, nonce⟩,
                        reason := none }) := by
  simp only [verifyActivationKey, stageFields, stageNonceSig, stageSignature, stageExpiry]
  by_cases hA : (jsSplit '|' (base64UrlDecode key)).length ≠ 4
  · rw [if_pos hA, if_pos hA]
  · rw [if_neg hA, if_neg hA]
    simp only []
    by_cases hB : (jsSplit '.' ((jsSplit '|' (base64UrlDecode key)).getD 3 [])).length ≠ 2
    · rw [if_pos hB, if_pos hB]
    · rw [if_neg hB, if_neg hB]
      simp only []
      by_cases hC : (jsSplit '.' ((jsSplit '|' (base64UrlDecode key)).getD 3 [])).getD 1 []
          ≠ generateSignature ((jsSplit '|' (base64UrlDecode key)).getD 0 [] ++ '|'
              :: ((jsSplit '|' (base64UrlDecode key)).getD 1 [] ++ '|'
                :: ((jsSplit '|' (base64UrlDecode key)).getD 2 [] ++ '|'
                  :: (jsSplit '.' ((jsSplit '|' (base64UrlDecode key)).getD 3 [])).getD 0 [])))
            secret
      · rw [if_pos hC, if_pos hC]
      · rw [if_neg hC, if_neg hC]
        cases hpd : pd ((jsSplit '|' (base64UrlDecode key)).getD 1 []) with
        | none => rfl
        | some t =>
          simp only []
          by_cases ht : t ≤ now
          · rw [if_pos ht, if_pos ht]
          · rw [if_neg ht, if_neg ht]

/-- C2 counterexample: on the token "eA" (the valid encoding of the
dot-free, delimiter-free string "x") the code answers MalformedPayload,
while the specified order of checks (last-dot split first) would answer
MalformedSignatureSection: the code does not proceed in the claimed
order. -/
theorem verify_order_differs_from_spec :
    verifyActivationKey "eA".toList "s".toList pdE 0
      = { valid := false, payload := none, reason := some reasonPayloadFormat }
    ∧ verifySpecOrder "eA".toList "s".toList pdE 0
      = { valid := false, payload := none, reason := some reasonNonceSigFormat } :=
  ⟨by decide, by decide⟩

/-- C3 (amended): verifying a token created with secretA against
secretB yields the signature-mismatch failure exactly when the two
secrets assign different HMAC-SHA256 signatures to the payload; distinct
secrets can collide (e.g. a short secret and the same secret extended
with a NUL byte), in which case verification does not report a mismatch. -/
theorem wrong_secret_mismatch (id exp plan nonce sA sB : JStr) (pd : JStr → Option Int)
    (now : Int) (h1 : '|' ∉ id) (h2 : '|' ∉ exp) (h3 : '|' ∉ plan) (h4 : '|' ∉ nonce)
    (h5 : '.' ∉ nonce)
    (hsig : generateSignature (id ++ '|' :: (exp ++ '|' :: (plan ++ '|' :: nonce))) sA
      ≠ generateSignature (id ++ '|' :: (exp ++ '|' :: (plan ++ '|' :: nonce))) sB) :
    verifyActivationKey (createActivationKey id exp plan nonce sA) sB pd now
      = { valid := false, payload := none, reason := some reasonBadSignature } := by
  rw [verify_create id exp plan nonce sA sB pd now h1 h2 h3 h4 h5, if_neg hsig]

/-- C3 witness: two secrets whose signatures for the payload differ. -/
theorem wrong_secret_mismatch_witness :
    ('|' ∉ "a".toList ∧ '|' ∉ "E".toList ∧ '|' ∉ "p".toList ∧ '|' ∉ "n".toList
      ∧ '.' ∉ "n".toList
      ∧ generateSignature
          ("a".toList ++ '|' :: ("E".toList ++ '|' :: ("p".toList ++ '|' :: "n".toList)))
          "a".toList
        ≠ generateSignature
          ("a".toList ++ '|' :: ("E".toList ++ '|' :: ("p".toList ++ '|' :: "n".toList)))
          "b".toList)
    ∧ verifyActivationKey
        (createActivationKey "a".toList "E".toList "p".toList "n".toList "a".toList)
        "b".toList pdE 0
      = { valid := false, payload := none, reason := some reasonBadSignature } :=
  ⟨⟨by decide, by decide, by decide, by decide, by decide, by decide⟩,
   wrong_secret_mismatch "a".toList "E".toList "p".toList "n".toList "a".toList "b".toList
     pdE 0 (by decide) (by decide) (by decide) (by decide) (by decide) (by decide)⟩

/-- C3 counterexample: the distinct secrets "abc" and "abc followed by a
NUL byte" are an HMAC key collision (RFC 2104 pads short keys with NUL
bytes), so a token created with the first verifies as Valid - not
SignatureMismatch - against the second. -/
theorem wrong_secret_collision :
    ("abc".toList ≠ "abc\x00".toList)
    ∧ verifyActivationKey
        (createActivationKey "a".toList "E".toList "p".toList "n".toList "abc".toList)
        "abc\x00".toList pdE 0
      = { valid := true,
          payload := some ⟨"a".toList, "E".toList, "p".toList, "n".toList⟩,
          reason := none } :=
  ⟨by decide, by decide⟩

/-- C4: for a structurally well-formed token signed with the verifying
secret, verification returns Expired whenever the parsed expiry is at or
before the current instant (expiry is exclusive of the present instant)
and Valid whenever it is strictly in the future. -/
theorem expiry_boundary (id exp plan nonce secret : JStr) (pd : JStr → Option Int)
    (now t : Int) (h1 : '|' ∉ id) (h2 : '|' ∉ exp) (h3 : '|' ∉ plan) (h4 : '|' ∉ nonce)
    (h5 : '.' ∉ nonce) (hpd : pd exp = some t) :
    (t ≤ now →
      verifyActivationKey (createActivationKey id exp plan nonce secret) secret pd now
        = { valid := false, payload := none, reason := some reasonExpired })
    ∧ (now < t →
      verifyActivationKey (createActivationKey id exp plan nonce secret) secret pd now
        = { valid := true, payload := some ⟨id, exp, plan, nonce⟩, reason := none }) := by
  refine ⟨fun ht => ?_, fun ht => ?_⟩ <;>
    rw [verify_create id exp plan nonce secret secret pd now h1 h2 h3 h4 h5, if_pos rfl, hpd]
  · simp [ht]
  · have hnle : ¬ t ≤ now := by omega
    simp [hnle]

/-- C4 witness: a token whose expiry instant equals the current instant
is Expired. -/
theorem expiry_boundary_witness :
    ('|' ∉ "a".toList ∧ '|' ∉ "E".toList ∧ '|' ∉ "p".toList ∧ '|' ∉ "n".toList
      ∧ '.' ∉ "n".toList ∧ pdE "E".toList = some 1 ∧ (1 : Int) ≤ 1)
    ∧ verifyActivationKey
        (createActivationKey "a".toList "E".toList "p".toList "n".toList "s".toList)
        "s".toList pdE 1
      = { valid := false, payload := none, reason := some reasonExpired } :=
  ⟨⟨by decide, by decide, by decide, by decide, by decide, by decide, by decide⟩,
   (expiry_boundary "a".toList "E".toList "p".toList "n".toList "s".toList pdE 1 1
     (by decide) (by decide) (by decide) (by decide) (by decide) (by decide)).1 (by decide)⟩

/-- C5: on the token "!!!!", which is not a valid base64url encoding,
the code answers MalformedPayload, not MalformedEncoding: Node's lenient
decoder skips the invalid characters and never throws, so the catch
branch that would report the decoding failure is unreachable. -/
theorem malformed_encoding_unreachable (secret : JStr) (pd : JStr → Option Int) (now : Int) :
    verifyActivationKey "!!!!".toList secret pd now
      = { valid := false, payload := none, reason := some reasonPayloadFormat } := by
  have hdec : base64UrlDecode "!!!!".toList = [] := by decide
  simp only [verifyActivationKey, hdec]
  rfl

/-- C6 (amended): `createActivationKey` performs no input validation and
never fails: every input quadruple, delimiter-containing fields
included, is embedded verbatim in the signed, encoded token. -/
theorem create_never_fails (id exp plan nonce secret : JStr) :
    base64UrlDecode (createActivationKey id exp plan nonce secret)
      = (id ++ '|' :: (exp ++ '|' :: (plan ++ '|' :: nonce))) ++ '.' ::
          generateSignature (id ++ '|' :: (exp ++ '|' :: (plan ++ '|' :: nonce))) secret := by
  simp only [createActivationKey]
  exact base64UrlDecode_base64UrlEncode _

/-- C6 counterexample: with the delimiter inside the identifier,
`createActivationKey` does not fail with any input error - it returns a
non-empty token, which later merely fails verification with
MalformedPayload (five fields instead of four). -/
theorem create_accepts_delimiter :
    createActivationKey "a|b".toList "E".toList "p".toList "n".toList "s".toList ≠ []
    ∧ verifyActivationKey
        (createActivationKey "a|b".toList "E".toList "p".toList "n".toList "s".toList)
        "s".toList pdE 0
      = { valid := false, payload := none, reason := some reasonPayloadFormat } :=
  ⟨by decide, by decide⟩

/-- C7: `isActive` semantics with lazy expiry, on any map state (unique
keys, as a JavaScript `Map` guarantees): no stored session gives false
with the state unchanged; a stored session whose parsed expiry is at or
before now is deleted and gives false, and the deleted entry is absent
from a subsequent `getSession`; a stored session with expiry strictly
after now gives true with the state unchanged. -/
theorem isActive_lazy_expiry (pd : JStr → Option Int) (now : Int) (identifier : JStr)
    (st : RegState) (hnodup : (st.map Prod.fst).Nodup) :
    (mapGet st identifier = none → isActive pd now identifier st = (false, st))
    ∧ (∀ session t, mapGet st identifier = some session → pd session.expiry = some t →
        t ≤ now →
        isActive pd now identifier st = (false, mapDelete st identifier)
        ∧ getSession identifier (mapDelete st identifier) = none)
    ∧ (∀ session t, mapGet st identifier = some session → pd session.expiry = some t →
        now < t → isActive pd now identifier st = (true, st)) := by
  refine ⟨?_, ?_, ?_⟩
  · intro h
    simp [isActive, h]
  · intro session t hget hpdx ht
    refine ⟨by simp [isActive, hget, hpdx, ht], ?_⟩
    exact mapGet_mapDelete st identifier hnodup
  · intro session t hget hpdx ht
    have hnle : ¬ t ≤ now := by omega
    simp [isActive, hget, hpdx, hnle]

/-- C7 witness: a stored session whose expiry instant 1 has passed at
now = 1 is lazily deleted, and `getSession` then returns absent. -/
theorem isActive_lazy_expiry_witness :
    (([("u".toList, sessU)] : RegState).map Prod.fst).Nodup
    ∧ (pdE sessU.expiry = some 1 ∧ (1 : Int) ≤ 1)
    ∧ isActive pdE 1 "u".toList [("u".toList, sessU)]
        = (false, mapDelete [("u".toList, sessU)] "u".toList)
    ∧ getSession "u".toList (mapDelete [("u".toList, sessU)] "u".toList) = none := by
  refine ⟨by decide, ⟨by decide, by decide⟩, ?_, ?_⟩
  · exact ((isActive_lazy_expiry pdE 1 "u".toList [("u".toList, sessU)] (by decide)).2.1
      sessU 1 (by decide) (by decide) (by decide)).1
  · exact ((isActive_lazy_expiry pdE 1 "u".toList [("u".toList, sessU)] (by decide)).2.1
      sessU 1 (by decide) (by decide) (by decide)).2

/-- C8: `activate` returns the rejection carrying the verification
reason and leaves the map unchanged exactly when verification carries no
payload (the Invalid outcomes), and otherwise insert-or-replaces the
session under the verified identifier and reports it accepted; looking
up a key right after `mapSet` always yields the new session
(re-activation fully replaces). -/
theorem activate_postcondition (secret key : JStr) (pd : JStr → Option Int) (now : Int)
    (st : RegState) :
    (activate secret pd now key st =
      match (verifyActivationKey key secret pd now).payload with
      | none =>
        ({ ok := false, identifier := none, plan := none, expiry := none,
           reason := (verifyActivationKey key secret pd now).reason }, st)
      | some p =>
        ({ ok := true, identifier := some p.identifier, plan := some p.plan,
           expiry := some p.expiry, reason := none },
         mapSet st p.identifier ⟨p.identifier, p.plan, p.expiry, now⟩))
    ∧ (∀ (st2 : RegState) (k : JStr) (sess : ActivationSession),
        mapGet (mapSet st2 k sess) k = some sess) := by
  constructor
  · rcases verify_shape key secret pd now with ⟨hv, ⟨p, hp⟩, _⟩ | ⟨hv, hp, _⟩
    · simp [activate, hp, hv]
    · simp [activate, hp, hv]
  · exact mapGet_mapSet

/-- C9: verification is total and its outcomes are exhaustively the
Valid shape or an Invalid shape with one of the five reachable reason
strings; no exception-like outcome exists (failures are values). -/
theorem verification_total (key secret : JStr) (pd : JStr → Option Int) (now : Int) :
    ((verifyActivationKey key secret pd now).valid = true
      ∧ (∃ p, (verifyActivationKey key secret pd now).payload = some p)
      ∧ (verifyActivationKey key secret pd now).reason = none)
    ∨ ((verifyActivationKey key secret pd now).valid = false
      ∧ (verifyActivationKey key secret pd now).payload = none
      ∧ ((verifyActivationKey key secret pd now).reason = some reasonPayloadFormat
        ∨ (verifyActivationKey key secret pd now).reason = some reasonNonceSigFormat
        ∨ (verifyActivationKey key secret pd now).reason = some reasonBadSignature
        ∨ (verifyActivationKey key secret pd now).reason = some reasonBadExpiryFormat
        ∨ (verifyActivationKey key secret pd now).reason = some reasonExpired)) :=
  verify_shape key secret pd now

/-- C10: in every registry state reachable from the empty map by any
sequence of activate, isActive, getSession and cleanExpiredSessions
calls, each stored session's identifier field equals the map key it is
stored under. -/
theorem registry_keys_consistent (secret : JStr) (pd : JStr → Option Int)
    (ops : List RegOp) : KeysMatch (regRun secret pd ops) := by
  suffices h : ∀ st, KeysMatch st → KeysMatch (ops.foldl (regStep secret pd) st) from
    h [] (fun e he => absurd he (List.not_mem_nil e))
  induction ops with
  | nil => intro st h; exact h
  | cons op ops ih =>
    intro st h
    exact ih _ (keysMatch_step secret pd st op h)

end Traducteur
